import Mathlib

/-!
Verification of the flexible ingestion and transformation pipeline of the
abt-dashboard repository (Go).  The Go sources are embedded shallowly:

* `internal/models` — the canonical `Transaction` record;
* `internal/transform/transformations.go` — the optimization passes
  (`DuplicateRemoval`, `DataDeduplication`, `IndexOptimization`), the
  `DateNormalization` transformation and the validators;
* `internal/transform/engine.go` — `DataTransformationEngine`
  (`TransformCSVData`, `calculateDataQuality`, `parsePrice`);
* the format converter (`DetectFormat`, `createColumnMapping`,
  `parseRecordToTransaction`, `parseFlexiblePrice`, `parseFlexibleDate`,
  `mapToTransaction`) and the handler (`ProcessDataFile`,
  `detectFileFormat`).

Machine integers (`int64`) are modelled as `Int` (all values handled here are
far from the 64-bit boundary), `float64` values entering arithmetic are
modelled exactly as the rationals they denote together with an explicit
round-to-nearest-double operation, and `time.Time` is modelled as an absolute
instant (nanoseconds on the Unix scale) paired with a location tag, which is
what the code observes through `Unix()`, `IsZero()` and `UTC()`.
-/

set_option maxHeartbeats 1000000

namespace AbtDashboard

/-! ## Go `time.Time` (the fragment the pipeline observes) -/

/-- The location attached to a Go `time.Time`: `time.Parse` yields `UTC` for
formats without a zone, a fixed offset when the input carries one, and
`time.Unix` yields the local zone. -/
inductive GoLocation where
  | utc
  | localZone
  | fixedOffset (offsetSec : Int)
deriving DecidableEq, Repr

/-- A Go `time.Time`: an absolute instant (nanoseconds since the Unix epoch,
possibly negative) plus its location.  Comparisons such as `IsZero` read only
the instant; `UTC()` changes only the location. -/
structure GoTime where
  unixNanos : Int
  loc : GoLocation
deriving DecidableEq, Repr

/-- The instant of Go's zero `time.Time` (January 1, year 1, 00:00:00 UTC)
on the Unix nanosecond scale. -/
def GoTime.zeroInstant : Int := -62135596800 * 1000000000

/-- Go's `time.Time.IsZero`: true exactly on the zero instant. -/
def GoTime.isZero (t : GoTime) : Bool := t.unixNanos == GoTime.zeroInstant

/-- Go's zero `time.Time` value. -/
def GoTime.zero : GoTime := ⟨GoTime.zeroInstant, .utc⟩

/-- Go's `time.Time.Unix()`: whole seconds since the epoch (the stored
seconds component, i.e. the floor of the nanosecond instant). -/
def GoTime.Unix (t : GoTime) : Int := Int.fdiv t.unixNanos 1000000000

/-- Go's `time.Time.UTC()`: same instant, location set to UTC. -/
def GoTime.UTC (t : GoTime) : GoTime := ⟨t.unixNanos, .utc⟩

/-! ## `internal/models`: the canonical transaction record -/

/-- `models.Transaction` (src/unnamed/part_004).  `int64` fields become
`Int`. -/
structure Transaction where
  ID : String
  Country : String
  Region : String
  ProductName : String
  UnitPriceCents : Int
  Quantity : Int
  TxTime : GoTime
deriving DecidableEq, Repr

/-! ## Optimization passes (`internal/transform/transformations.go`)

Both deduplication passes walk the slice once with a `map[string]bool` of
seen keys, appending a record exactly when its key is fresh.  The map is
modelled as the list of keys inserted so far. -/

/-- The common loop of `DuplicateRemoval.Optimize` and
`DataDeduplication.Optimize`: keep a record iff its key is not in `seen`,
recording fresh keys. -/
def dedupBy {α β : Type} [DecidableEq β] (key : α → β) :
    List β → List α → List α
  | _, [] => []
  | seen, x :: rest =>
    if key x ∈ seen then dedupBy key seen rest
    else x :: dedupBy key (key x :: seen) rest

/-- `DuplicateRemoval.Optimize` on a transaction slice: first record per
`tx.ID` wins (transformations.go lines 410–425). -/
def DuplicateRemoval.Optimize (transactions : List Transaction) : List Transaction :=
  dedupBy (fun tx => tx.ID) [] transactions

/-- The composite key of `DataDeduplication.Optimize`:
`fmt.Sprintf("%s:%s:%s:%s:%d:%d:%d", tx.ID, tx.Country, tx.Region,
tx.ProductName, tx.UnitPriceCents, tx.Quantity, tx.TxTime.Unix())`.
The string is represented by its character list. -/
def dedupKey (tx : Transaction) : List Char :=
  tx.ID.data ++ ':' :: tx.Country.data ++ ':' :: tx.Region.data ++
    ':' :: tx.ProductName.data ++ ':' :: (toString tx.UnitPriceCents).data ++
    ':' :: (toString tx.Quantity).data ++ ':' :: (toString tx.TxTime.Unix).data

/-- `DataDeduplication.Optimize`: first record per composite key wins
(transformations.go lines 438–458). -/
def DataDeduplication.Optimize (transactions : List Transaction) : List Transaction :=
  dedupBy dedupKey [] transactions

/-- `IndexOptimization.Optimize` returns the slice unchanged
(transformations.go lines 471–479). -/
def IndexOptimization.Optimize (transactions : List Transaction) : List Transaction :=
  transactions

/-! ### Properties of the deduplication loop -/

theorem dedupBy_sublist {α β : Type} [DecidableEq β] (key : α → β) :
    ∀ (l : List α) (seen : List β), (dedupBy key seen l).Sublist l := by
  intro l
  induction l with
  | nil => intro seen; simp [dedupBy]
  | cons x xs ih =>
    intro seen
    by_cases hx : key x ∈ seen
    · simpa [dedupBy, hx] using (ih seen).trans (List.sublist_cons_self x xs)
    · simpa [dedupBy, hx] using (ih (key x :: seen)).cons₂ x

theorem dedupBy_first {α β : Type} [DecidableEq β] (key : α → β) :
    ∀ (l : List α) (seen : List β) (u : α), u ∈ dedupBy key seen l →
      key u ∉ seen ∧ l.find? (fun y => decide (key y = key u)) = some u := by
  intro l
  induction l with
  | nil => intro seen u hu; simp [dedupBy] at hu
  | cons x xs ih =>
    intro seen u hu
    by_cases hx : key x ∈ seen
    · rw [dedupBy, if_pos hx] at hu
      obtain ⟨h1, h2⟩ := ih seen u hu
      have hne : ¬ key x = key u := fun he => h1 (he ▸ hx)
      refine ⟨h1, ?_⟩
      rw [List.find?_cons_of_neg _ (by simpa using hne)]
      exact h2
    · rw [dedupBy, if_neg hx] at hu
      rcases List.mem_cons.mp hu with rfl | hu
      · exact ⟨hx, by rw [List.find?_cons_of_pos _ (by simp)]⟩
      · obtain ⟨h1, h2⟩ := ih (key x :: seen) u hu
        have hxu : ¬ key x = key u := fun he => h1 (by simp [he])
        refine ⟨fun hs => h1 (List.mem_cons_of_mem _ hs), ?_⟩
        rw [List.find?_cons_of_neg _ (by simpa using hxu)]
        exact h2

theorem dedupBy_keys_nodup {α β : Type} [DecidableEq β] (key : α → β) :
    ∀ (l : List α) (seen : List β),
      ((dedupBy key seen l).map key).Nodup ∧
        ∀ b ∈ (dedupBy key seen l).map key, b ∉ seen := by
  intro l
  induction l with
  | nil => intro seen; simp [dedupBy]
  | cons x xs ih =>
    intro seen
    by_cases hx : key x ∈ seen
    · simpa [dedupBy, hx] using ih seen
    · obtain ⟨h1, h2⟩ := ih (key x :: seen)
      rw [dedupBy, if_neg hx]
      refine ⟨?_, ?_⟩
      · simp only [List.map_cons, List.nodup_cons]
        exact ⟨fun hmem => by simpa using h2 _ hmem, h1⟩
      · intro b hb
        simp only [List.map_cons, List.mem_cons] at hb
        rcases hb with rfl | hb
        · exact hx
        · exact fun hs => h2 _ hb (List.mem_cons_of_mem _ hs)

theorem dedupBy_complete {α β : Type} [DecidableEq β] (key : α → β) :
    ∀ (l : List α) (seen : List β) (x : α), x ∈ l →
      key x ∈ seen ∨ ∃ u ∈ dedupBy key seen l, key u = key x := by
  intro l
  induction l with
  | nil => intro seen x hx; simp at hx
  | cons a xs ih =>
    intro seen x hx
    rcases List.mem_cons.mp hx with rfl | hx
    · by_cases ha : key x ∈ seen
      · exact Or.inl ha
      · exact Or.inr ⟨x, by rw [dedupBy, if_neg ha]; simp, rfl⟩
    · by_cases ha : key a ∈ seen
      · rw [dedupBy, if_pos ha]
        exact ih seen x hx
      · rw [dedupBy, if_neg ha]
        rcases ih (key a :: seen) x hx with hs | ⟨u, hu, he⟩
        · rcases List.mem_cons.mp hs with he | hs
          · exact Or.inr ⟨a, List.mem_cons_self a _, he.symm⟩
          · exact Or.inl hs
        · exact Or.inr ⟨u, List.mem_cons_of_mem _ hu, he⟩

theorem dedupBy_of_nodup {α β : Type} [DecidableEq β] (key : α → β) :
    ∀ (l : List α) (seen : List β), ((l.map key).Nodup) →
      (∀ x ∈ l, key x ∉ seen) → dedupBy key seen l = l := by
  intro l
  induction l with
  | nil => intro seen _ _; simp [dedupBy]
  | cons x xs ih =>
    intro seen hnd hsn
    rw [List.map_cons, List.nodup_cons] at hnd
    rw [dedupBy, if_neg (hsn x (List.mem_cons_self x xs))]
    congr 1
    refine ih (key x :: seen) hnd.2 ?_
    intro y hy hmem
    rcases List.mem_cons.mp hmem with he | hs
    · exact hnd.1 (he ▸ List.mem_map_of_mem key hy)
    · exact hsn y (List.mem_cons_of_mem _ hy) hs

/-! ### C7: `DuplicateRemoval.Optimize` keeps the first record per identifier -/

/-- C7: for every transaction list, `DuplicateRemoval.Optimize` returns an
order-preserving sublist in which every surviving record is exactly the
first-encountered record bearing its identifier, the surviving identifiers
are pairwise distinct, and every identifier of the input is represented. -/
theorem DuplicateRemoval_Optimize_first_per_id (l : List Transaction) :
    (DuplicateRemoval.Optimize l).Sublist l ∧
    (∀ u ∈ DuplicateRemoval.Optimize l,
      l.find? (fun y => decide (y.ID = u.ID)) = some u) ∧
    ((DuplicateRemoval.Optimize l).map (fun tx => tx.ID)).Nodup ∧
    (∀ x ∈ l, ∃ u ∈ DuplicateRemoval.Optimize l, u.ID = x.ID) := by
  unfold DuplicateRemoval.Optimize
  refine ⟨dedupBy_sublist _ l [], ?_, (dedupBy_keys_nodup _ l []).1, ?_⟩
  · intro u hu
    exact (dedupBy_first (fun tx => tx.ID) l [] u hu).2
  · intro x hx
    rcases dedupBy_complete (fun tx => tx.ID) l [] x hx with hs | h
    · simp at hs
    · exact h

/-! ### C10: `DataDeduplication` after `DuplicateRemoval`

The composite key is a colon-separated rendering of all seven fields, so two
records with distinct identifiers can still collide when a field value itself
contains a colon (`ID = "a"`, `Country = "b:c"` versus `ID = "a:b"`,
`Country = "c"`).  When no identifier contains a colon, key equality forces
identifier equality, and the pass removes nothing. -/

theorem colon_split :
    ∀ (a b r1 r2 : List Char), ':' ∉ a → ':' ∉ b →
      a ++ ':' :: r1 = b ++ ':' :: r2 → a = b ∧ r1 = r2 := by
  intro a
  induction a with
  | nil =>
    intro b r1 r2 _ hb he
    cases b with
    | nil => simpa using he
    | cons c cs =>
      simp only [List.nil_append, List.cons_append, List.cons.injEq] at he
      exact absurd (he.1 ▸ List.mem_cons_self c cs) hb
  | cons c cs ih =>
    intro b r1 r2 ha hb he
    cases b with
    | nil =>
      simp only [List.cons_append, List.nil_append, List.cons.injEq] at he
      exact absurd (he.1 ▸ List.mem_cons_self c cs) ha
    | cons d ds =>
      simp only [List.cons_append, List.cons.injEq] at he
      obtain ⟨rfl, he2⟩ := he
      obtain ⟨rfl, rfl⟩ := ih ds r1 r2 (fun h => ha (List.mem_cons_of_mem _ h))
        (fun h => hb (List.mem_cons_of_mem _ h)) he2
      exact ⟨rfl, rfl⟩

theorem string_eq_of_data_eq {s t : String} (h : s.data = t.data) : s = t := by
  cases s; cases t; exact congrArg String.mk h

theorem dedupKey_id_eq {a b : Transaction}
    (ha : ':' ∉ a.ID.data) (hb : ':' ∉ b.ID.data)
    (h : dedupKey a = dedupKey b) : a.ID = b.ID := by
  unfold dedupKey at h
  simp only [List.cons_append, List.append_assoc] at h
  exact string_eq_of_data_eq (colon_split _ _ _ _ ha hb h).1

/-- C10 counterexample: two records with distinct identifiers whose composite
keys coincide because a colon inside one field shifts the separator
(`"a" / "b:c"` versus `"a:b" / "c"`): `DataDeduplication.Optimize` drops the
second record from `DuplicateRemoval.Optimize`'s output, so the composition
is not the identity on that output. -/
theorem C10_counterexample :
    DataDeduplication.Optimize (DuplicateRemoval.Optimize
        [⟨"a", "b:c", "r", "p", 1, 1, ⟨0, .utc⟩⟩,
         ⟨"a:b", "c", "r", "p", 1, 1, ⟨0, .utc⟩⟩]) ≠
      DuplicateRemoval.Optimize
        [⟨"a", "b:c", "r", "p", 1, 1, ⟨0, .utc⟩⟩,
         ⟨"a:b", "c", "r", "p", 1, 1, ⟨0, .utc⟩⟩] := by
  decide

/-- C10 amended: in the registered optimization order, applying
`DataDeduplication.Optimize` to the output of `DuplicateRemoval.Optimize`
returns that output unchanged, provided no identifier in the input contains
the composite-key separator `':'` (otherwise the rendered keys of two
records with distinct identifiers may coincide). -/
theorem DataDeduplication_after_DuplicateRemoval (l : List Transaction)
    (hid : ∀ tx ∈ l, ':' ∉ tx.ID.data) :
    DataDeduplication.Optimize (DuplicateRemoval.Optimize l) =
      DuplicateRemoval.Optimize l := by
  unfold DuplicateRemoval.Optimize DataDeduplication.Optimize
  have hID := (dedupBy_keys_nodup (fun tx => tx.ID) l []).1
  have hsub : ∀ tx ∈ dedupBy (fun tx => tx.ID) [] l, ':' ∉ tx.ID.data := by
    intro tx htx
    exact hid tx ((dedupBy_sublist (fun tx => tx.ID) l []).subset htx)
  have hL : (dedupBy (fun tx => tx.ID) [] l).Nodup := hID.of_map _
  refine dedupBy_of_nodup dedupKey _ [] (List.Nodup.map_on ?_ hL)
    (by intro x _ hmem; simp at hmem)
  intro x hx y hy hk
  exact List.inj_on_of_nodup_map hID hx hy
    (dedupKey_id_eq (hsub x hx) (hsub y hy) hk)

/-- Witness for the amended C10 theorem at a concrete two-record input with
a shared identifier. -/
theorem DataDeduplication_after_DuplicateRemoval_witness :
    DataDeduplication.Optimize (DuplicateRemoval.Optimize
        [⟨"t1", "US", "N", "W", 100, 1, ⟨0, .utc⟩⟩,
         ⟨"t1", "UK", "S", "G", 200, 2, ⟨0, .utc⟩⟩]) =
      DuplicateRemoval.Optimize
        [⟨"t1", "US", "N", "W", 100, 1, ⟨0, .utc⟩⟩,
         ⟨"t1", "UK", "S", "G", 200, 2, ⟨0, .utc⟩⟩] :=
  DataDeduplication_after_DuplicateRemoval _ (by decide)

/-! ## The quality scorer (`engine.go`, `calculateDataQuality`)

`DataQualityMetrics` scores live in `[0,1]`; Go `float64` fractions of small
integers are modelled as rationals (the divisions involved are exact in the
claims under scrutiny).  The Go `FieldMetrics` map acquires an entry only for
a field whose presence counter was incremented at least once; reading an
absent key from a Go map yields the zero value. -/

structure DataQualityMetrics where
  Completeness : ℚ
  Consistency : ℚ
  Validity : ℚ
  Uniqueness : ℚ
  FieldMetrics : List (String × ℚ)
deriving DecidableEq, Repr

/-- The seven per-field presence tests of `calculateDataQuality`
(engine.go lines 433–455), in source order, with the map key stem used for
each. -/
def completenessFields : List (String × (Transaction → Bool)) :=
  [("id", fun tx => decide (tx.ID ≠ "")),
   ("country", fun tx => decide (tx.Country ≠ "")),
   ("region", fun tx => decide (tx.Region ≠ "")),
   ("product_name", fun tx => decide (tx.ProductName ≠ "")),
   ("price", fun tx => decide (0 < tx.UnitPriceCents)),
   ("quantity", fun tx => decide (0 < tx.Quantity)),
   ("date", fun tx => !tx.TxTime.isZero)]

/-- Reading a Go `map[string]float64`: the zero value for an absent key. -/
def goMapLookup (m : List (String × ℚ)) (k : String) : ℚ :=
  (m.lookup k).getD 0

/-- `DataTransformationEngine.calculateDataQuality` (engine.go lines
420–485).  An empty slice short-circuits to the zero metrics.  Otherwise the
completeness map holds `count/len` for each field counted at least once, the
overall completeness is the entry sum divided by the seven fields, uniqueness
is distinct identifiers over total, validity is the fraction of records with
non-negative price and quantity, and consistency is the 0.95 placeholder. -/
def calculateDataQuality (transactions : List Transaction) : DataQualityMetrics :=
  if transactions.isEmpty then ⟨0, 0, 0, 0, []⟩
  else
    let n : ℚ := transactions.length
    let fieldMetrics := completenessFields.filterMap (fun p =>
      if transactions.countP p.2 = 0 then none
      else some (p.1 ++ "_completeness", (transactions.countP p.2 : ℚ) / n))
    let totalCompleteness := (fieldMetrics.map (fun q => q.2)).sum
    let uniqueness := (((transactions.map (fun tx => tx.ID)).dedup.length : ℚ)) / n
    let validity := ((transactions.countP
      (fun tx => decide (0 ≤ tx.UnitPriceCents) && decide (0 ≤ tx.Quantity)) : ℚ)) / n
    ⟨totalCompleteness / 7, 95 / 100, validity, uniqueness, fieldMetrics⟩

/-! ### C8: empty record set -/

/-- C8: the quality scorer applied to an empty record set returns the
all-zero metrics (it returns before any of its divisions, so no division by
zero is performed). -/
theorem calculateDataQuality_empty :
    calculateDataQuality [] = ⟨0, 0, 0, 0, []⟩ := rfl

/-! ### C9: a batch in which every record is missing `region` -/

theorem lookup_filterMap_none {α : Type} (fs : List α)
    (F : α → Option (String × ℚ)) (k : String)
    (h : ∀ p ∈ fs, ∀ v, F p = some v → v.1 ≠ k) :
    (fs.filterMap F).lookup k = none := by
  induction fs with
  | nil => rfl
  | cons p ps ih =>
    rw [List.filterMap_cons]
    cases hF : F p with
    | none => exact ih (fun q hq => h q (List.mem_cons_of_mem _ hq))
    | some v =>
      obtain ⟨kv, bv⟩ := v
      have hne : kv ≠ k := fun he => h p (List.mem_cons_self p ps) (kv, bv) hF he
      rw [List.lookup_cons, beq_false_of_ne (Ne.symm hne)]
      exact ih (fun q hq => h q (List.mem_cons_of_mem _ hq))

theorem sum_filterMap_completeness (l : List Transaction) (n : ℚ)
    (fs : List (String × (Transaction → Bool))) :
    (((fs.filterMap (fun p =>
        if l.countP p.2 = 0 then none
        else some (p.1 ++ "_completeness", (l.countP p.2 : ℚ) / n))).map
      (fun q => q.2)).sum) =
      (fs.map (fun p => ((l.countP p.2 : ℚ)) / n)).sum := by
  induction fs with
  | nil => rfl
  | cons p ps ih =>
    rw [List.filterMap_cons, List.map_cons, List.sum_cons]
    by_cases hc : l.countP p.2 = 0
    · rw [if_pos hc, hc]
      simpa using ih
    · rw [if_neg hc, List.map_cons, List.sum_cons, ih]

/-- C9: for every non-empty batch in which every record has an empty region,
the quality scorer reports a region per-field completeness of 0 (the Go map
holds no `region_completeness` entry, and reading the absent key yields the
zero value), an overall completeness strictly below 1, and an overall
completeness equal to the arithmetic mean of the seven per-field
completeness fractions. -/
theorem calculateDataQuality_region_missing (transactions : List Transaction)
    (hne : transactions ≠ [])
    (hreg : ∀ tx ∈ transactions, tx.Region = "") :
    goMapLookup (calculateDataQuality transactions).FieldMetrics
        "region_completeness" = 0 ∧
    (calculateDataQuality transactions).Completeness < 1 ∧
    (calculateDataQuality transactions).Completeness =
      (completenessFields.map (fun p =>
        ((transactions.countP p.2 : ℚ)) / ((transactions.length : ℚ)))).sum / 7 := by
  obtain ⟨t, ts, rfl⟩ : ∃ t ts, transactions = t :: ts := by
    cases transactions with
    | nil => exact absurd rfl hne
    | cons t ts => exact ⟨t, ts, rfl⟩
  have hc : (t :: ts).countP (fun tx => decide (tx.Region ≠ "")) = 0 :=
    List.countP_eq_zero.mpr (fun a ha => by simp [hreg a ha])
  have hFM : (calculateDataQuality (t :: ts)).FieldMetrics =
      completenessFields.filterMap (fun p =>
        if (t :: ts).countP p.2 = 0 then none
        else some (p.1 ++ "_completeness",
          ((t :: ts).countP p.2 : ℚ) / (((t :: ts).length : ℚ)))) := rfl
  have hS : (calculateDataQuality (t :: ts)).Completeness =
      (((calculateDataQuality (t :: ts)).FieldMetrics).map (fun q => q.2)).sum / 7 := rfl
  have hlen : (0 : ℚ) < (((t :: ts).length : ℚ)) := by
    exact_mod_cast Nat.succ_pos ts.length
  have hterm : ∀ f : Transaction → Bool,
      ((t :: ts).countP f : ℚ) / (((t :: ts).length : ℚ)) ≤ 1 := by
    intro f
    rw [div_le_one hlen]
    exact_mod_cast List.countP_le_length f
  refine ⟨?_, ?_, ?_⟩
  · rw [goMapLookup, hFM, lookup_filterMap_none]
    · rfl
    · intro p hp v hF
      fin_cases hp
      · by_cases h0 : (t :: ts).countP (fun tx => decide (tx.ID ≠ "")) = 0
        · rw [if_pos h0] at hF; exact Option.noConfusion hF
        · rw [if_neg h0] at hF; cases hF; simp
      · by_cases h0 : (t :: ts).countP (fun tx => decide (tx.Country ≠ "")) = 0
        · rw [if_pos h0] at hF; exact Option.noConfusion hF
        · rw [if_neg h0] at hF; cases hF; simp
      · rw [if_pos hc] at hF; exact Option.noConfusion hF
      · by_cases h0 : (t :: ts).countP (fun tx => decide (tx.ProductName ≠ "")) = 0
        · rw [if_pos h0] at hF; exact Option.noConfusion hF
        · rw [if_neg h0] at hF; cases hF; simp
      · by_cases h0 : (t :: ts).countP (fun tx => decide (0 < tx.UnitPriceCents)) = 0
        · rw [if_pos h0] at hF; exact Option.noConfusion hF
        · rw [if_neg h0] at hF; cases hF; simp
      · by_cases h0 : (t :: ts).countP (fun tx => decide (0 < tx.Quantity)) = 0
        · rw [if_pos h0] at hF; exact Option.noConfusion hF
        · rw [if_neg h0] at hF; cases hF; simp
      · by_cases h0 : (t :: ts).countP (fun tx => !tx.TxTime.isZero) = 0
        · rw [if_pos h0] at hF; exact Option.noConfusion hF
        · rw [if_neg h0] at hF; cases hF; simp
  · rw [hS, hFM, sum_filterMap_completeness, div_lt_one (by norm_num : (0:ℚ) < 7)]
    simp only [completenessFields, List.map_cons, List.map_nil, List.sum_cons,
      List.sum_nil, add_zero, hc, Nat.cast_zero, zero_div]
    have h1 := hterm (fun tx => decide (tx.ID ≠ ""))
    have h2 := hterm (fun tx => decide (tx.Country ≠ ""))
    have h4 := hterm (fun tx => decide (tx.ProductName ≠ ""))
    have h5 := hterm (fun tx => decide (0 < tx.UnitPriceCents))
    have h6 := hterm (fun tx => decide (0 < tx.Quantity))
    have h7 := hterm (fun tx => !tx.TxTime.isZero)
    linarith
  · rw [hS, hFM, sum_filterMap_completeness]

/-- Witness for C9 at a concrete one-record batch with an empty region. -/
theorem calculateDataQuality_region_missing_witness :
    goMapLookup (calculateDataQuality
        [⟨"t1", "US", "", "Widget", 100, 1, ⟨0, .utc⟩⟩]).FieldMetrics
      "region_completeness" = 0 ∧
    (calculateDataQuality
        [⟨"t1", "US", "", "Widget", 100, 1, ⟨0, .utc⟩⟩]).Completeness < 1 :=
  ⟨(calculateDataQuality_region_missing _ (by decide) (by decide)).1,
   (calculateDataQuality_region_missing _ (by decide) (by decide)).2.1⟩

/-! ## The two orchestrators' record loops

`DataTransformationEngine.TransformCSVData` (engine.go lines 144–228) and
`FlexibleDataHandler.ProcessDataFile` (handler, lines 443–536) are modelled
over already-split raw records, with the per-record parser/transformer and
the validator list as parameters (the Go methods dispatch through exactly
such closures/interfaces).  Go appends to the end of each result slice while
walking the records in order; the structural recursions below build the same
lists.  The wall-clock `ProcessingTime` field is not modelled (real time). -/

/-- `TransformationResult` (engine.go lines 60–69), without the wall-clock
duration. -/
structure TransformationResult where
  OriginalRecords : Nat
  TransformedRecords : Nat
  SkippedRecords : Nat
  Errors : List String
  Warnings : List String
  DataQuality : DataQualityMetrics
deriving Repr

/-- `DataTransformationEngine.validateTransaction` (engine.go lines
393–400): the first failing validator's message, if any. -/
def validateTransaction (validators : List (Transaction → Option String))
    (tx : Transaction) : Option String :=
  validators.findSome? (fun v => v tx)

/-- The registered optimizations applied in registration order
(`DuplicateRemoval`, `DataDeduplication`, `IndexOptimization`; engine.go
lines 120–123 and 402–418).  None of the three can fail. -/
def optimizeData (transactions : List Transaction) : List Transaction :=
  IndexOptimization.Optimize (DataDeduplication.Optimize
    (DuplicateRemoval.Optimize transactions))

/-- The intermediate totals of the `TransformCSVData` record loop. -/
structure EngineBatchOutcome where
  transactions : List Transaction
  transformed : Nat
  skipped : Nat
  errors : List String
  warnings : List String
deriving Repr

/-- The record loop of `TransformCSVData` (engine.go lines 186–203): a
record whose parse/transform fails is recorded as an error, bumps
`SkippedRecords` and is dropped; otherwise, with validation enabled, the
first failing validator adds a warning; the record is appended and
`TransformedRecords` bumped regardless of the validation outcome. -/
def engineProcessRecords (transformRecord : List String → Except String Transaction)
    (validators : List (Transaction → Option String)) (enableValidation : Bool) :
    List (List String) → EngineBatchOutcome
  | [] => ⟨[], 0, 0, [], []⟩
  | r :: rs =>
    let rest := engineProcessRecords transformRecord validators enableValidation rs
    match transformRecord r with
    | .error e =>
      ⟨rest.transactions, rest.transformed, rest.skipped + 1, e :: rest.errors,
        rest.warnings⟩
    | .ok tx =>
      if enableValidation then
        match validateTransaction validators tx with
        | some w =>
          ⟨tx :: rest.transactions, rest.transformed + 1, rest.skipped, rest.errors,
            w :: rest.warnings⟩
        | none =>
          ⟨tx :: rest.transactions, rest.transformed + 1, rest.skipped, rest.errors,
            rest.warnings⟩
      else
        ⟨tx :: rest.transactions, rest.transformed + 1, rest.skipped, rest.errors,
          rest.warnings⟩

/-- `DataTransformationEngine.TransformCSVData` after the raw CSV rows have
been read (engine.go lines 186–227): the record loop, then the registered
optimizations when enabled, then the quality metrics over the final slice. -/
def TransformCSVData (transformRecord : List String → Except String Transaction)
    (validators : List (Transaction → Option String))
    (enableValidation enableOptimization : Bool)
    (rawRecords : List (List String)) : List Transaction × TransformationResult :=
  let o := engineProcessRecords transformRecord validators enableValidation rawRecords
  let transactions := if enableOptimization then optimizeData o.transactions
    else o.transactions
  (transactions,
   ⟨rawRecords.length, o.transformed, o.skipped, o.errors, o.warnings,
    calculateDataQuality transactions⟩)

/-- One record through the handler's transformation loop (handler lines
484–496): a failing transformation adds a warning and leaves the record at
its last value; a succeeding one replaces it. -/
def handlerTransformOne (transformations : List (Transaction → Except String Transaction))
    (tx : Transaction) : Transaction × List String :=
  transformations.foldl (fun acc tr =>
    match tr acc.1 with
    | .error e => (acc.1, acc.2 ++ [e])
    | .ok tx2 => (tx2, acc.2)) (tx, [])

/-- The handler's validation step (handler lines 498–507): every failing
validator contributes a warning; nothing else happens. -/
def handlerValidationWarnings (validators : List (Transaction → Option String))
    (tx : Transaction) : List String :=
  validators.filterMap (fun v => v tx)

/-- The record loop of `ProcessDataFile` (handler lines 480–510): transform,
optionally validate (warnings only), always append. -/
def handlerProcessRecords (transformations : List (Transaction → Except String Transaction))
    (validators : List (Transaction → Option String)) (enableValidation : Bool) :
    List Transaction → List Transaction × List String
  | [] => ([], [])
  | tx :: txs =>
    let step := handlerTransformOne transformations tx
    let w2 := if enableValidation then handlerValidationWarnings validators step.1
      else []
    let rest := handlerProcessRecords transformations validators enableValidation txs
    (step.1 :: rest.1, step.2 ++ w2 ++ rest.2)

/-- `FlexibleDataHandler.ProcessDataFile` after format conversion has
produced the parsed transactions (handler lines 469–535): the result is
created with `OriginalRecords = TransformedRecords = len(transactions)` and
`SkippedRecords` left at its zero value, which no statement of the method
ever increments; `TransformedRecords` is reassigned to the optimized length
when optimization is enabled. -/
def ProcessDataFile (transformations : List (Transaction → Except String Transaction))
    (validators : List (Transaction → Option String))
    (enableValidation enableOptimization : Bool)
    (parsed : List Transaction) : List Transaction × TransformationResult :=
  let step := handlerProcessRecords transformations validators enableValidation parsed
  let final := if enableOptimization then optimizeData step.1 else step.1
  (final,
   ⟨parsed.length,
    if enableOptimization then final.length else parsed.length,
    0, [], step.2, calculateDataQuality final⟩)

/-! ### C6: validators only warn, they never filter -/

theorem engineProcessRecords_validation_independent
    (transformRecord : List String → Except String Transaction)
    (validators : List (Transaction → Option String)) (b : Bool) :
    ∀ rawRecords : List (List String),
      (engineProcessRecords transformRecord validators b rawRecords).transactions =
        (engineProcessRecords transformRecord [] false rawRecords).transactions ∧
      (engineProcessRecords transformRecord validators b rawRecords).transformed =
        (engineProcessRecords transformRecord [] false rawRecords).transformed ∧
      (engineProcessRecords transformRecord validators b rawRecords).skipped =
        (engineProcessRecords transformRecord [] false rawRecords).skipped ∧
      (engineProcessRecords transformRecord validators b rawRecords).errors =
        (engineProcessRecords transformRecord [] false rawRecords).errors := by
  intro rawRecords
  induction rawRecords with
  | nil => exact ⟨rfl, rfl, rfl, rfl⟩
  | cons r rs ih =>
    obtain ⟨h1, h2, h3, h4⟩ := ih
    cases htr : transformRecord r with
    | error e => simp [engineProcessRecords, htr, h1, h2, h3, h4]
    | ok tx =>
      cases b with
      | false => simp [engineProcessRecords, htr, h1, h2, h3, h4]
      | true =>
        cases hv : validateTransaction validators tx with
        | none => simp [engineProcessRecords, htr, hv, h1, h2, h3, h4]
        | some w => simp [engineProcessRecords, htr, hv, h1, h2, h3, h4]

theorem handlerProcessRecords_validation_independent
    (transformations : List (Transaction → Except String Transaction))
    (validators : List (Transaction → Option String)) (b : Bool) :
    ∀ parsed : List Transaction,
      (handlerProcessRecords transformations validators b parsed).1 =
        (handlerProcessRecords transformations [] false parsed).1 := by
  intro parsed
  induction parsed with
  | nil => rfl
  | cons tx txs ih => simp [handlerProcessRecords, ih]

/-- C6: in both orchestrators, with validation enabled, the validation
outcome never removes a record: the returned record set — and, in the
engine, the transformed/skipped counters and the error list — coincide with
those of a run with no validators and validation disabled; validators can
only contribute warnings. -/
theorem validators_never_filter
    (transformRecord : List String → Except String Transaction)
    (transformations : List (Transaction → Except String Transaction))
    (validators : List (Transaction → Option String)) (enableOptimization : Bool)
    (rawRecords : List (List String)) (parsed : List Transaction) :
    (TransformCSVData transformRecord validators true enableOptimization rawRecords).1 =
      (TransformCSVData transformRecord [] false enableOptimization rawRecords).1 ∧
    (TransformCSVData transformRecord validators true enableOptimization
        rawRecords).2.SkippedRecords =
      (TransformCSVData transformRecord [] false enableOptimization
        rawRecords).2.SkippedRecords ∧
    (TransformCSVData transformRecord validators true enableOptimization
        rawRecords).2.Errors =
      (TransformCSVData transformRecord [] false enableOptimization
        rawRecords).2.Errors ∧
    (ProcessDataFile transformations validators true enableOptimization parsed).1 =
      (ProcessDataFile transformations [] false enableOptimization parsed).1 := by
  obtain ⟨h1, h2, h3, h4⟩ :=
    engineProcessRecords_validation_independent transformRecord validators true rawRecords
  have h5 := handlerProcessRecords_validation_independent transformations validators true parsed
  refine ⟨?_, ?_, ?_, ?_⟩
  · simp [TransformCSVData, h1]
  · simp [TransformCSVData, h3]
  · simp [TransformCSVData, h4]
  · simp [ProcessDataFile, h5]

/-! ## Format detection (`FormatConverter.DetectFormat` and
`FlexibleDataHandler.detectFileFormat`)

Byte buffers and Go strings are represented by their character lists.
Detection is total by construction: every branch returns a format.  (The
only error path of `detectFileFormat` in the source is a file-system read
failure, which lies outside the byte-level model.) -/

inductive DataFormat where
  | csv
  | json
  | yaml
  | tsv
  | xml
deriving DecidableEq, Repr

/-- Go's `unicode.IsSpace` on the ASCII range (the inputs of interest
contain no exotic Unicode spaces). -/
def goIsSpace (c : Char) : Bool :=
  c = ' ' || c = '\t' || c = '\n' || c = '\x0b' || c = '\x0c' || c = '\r'

/-- Go's `strings.TrimSpace`. -/
def trimSpace (s : List Char) : List Char :=
  ((s.dropWhile goIsSpace).reverse.dropWhile goIsSpace).reverse

/-- `FormatConverter.DetectFormat` (format converter, lines 39–66):
JSON iff the trimmed text is `{…}`- or `[…]`-delimited; else XML iff it
starts with `<` and contains `>`; else YAML iff it contains `:` together
with `"\n-"` or `"---"`; else TSV iff it contains a tab; else CSV. -/
def DetectFormat (data : List Char) : DataFormat :=
  let dataStr := trimSpace data
  if (['{'] <+: dataStr ∧ ['}'] <:+ dataStr) ∨
      (['['] <+: dataStr ∧ [']'] <:+ dataStr) then .json
  else if ['<'] <+: dataStr ∧ '>' ∈ dataStr then .xml
  else if ':' ∈ dataStr ∧ (['\n', '-'] <:+: dataStr ∨ ['-', '-', '-'] <:+: dataStr) then
    .yaml
  else if '\t' ∈ dataStr then .tsv
  else .csv

/-- Go's `filepath.Ext`: the suffix beginning at the final dot of the final
path element, empty when that element has no dot. -/
def goFilepathExt (path : List Char) : List Char :=
  let lastElem := (path.reverse.takeWhile (fun c => c ≠ '/'))
  if '.' ∈ lastElem then ((lastElem.takeWhile (fun c => c ≠ '.')) ++ ['.']).reverse
  else []

/-- `FlexibleDataHandler.detectFileFormat` (handler, lines 539–564): trust a
recognized extension (including `.xml`), otherwise classify the first 1024
bytes of content with `DetectFormat`. -/
def detectFileFormat (filePath content : List Char) : DataFormat :=
  let ext := (goFilepathExt filePath).map Char.toLower
  if ext = ".csv".data then .csv
  else if ext = ".tsv".data then .tsv
  else if ext = ".json".data then .json
  else if ext = ".yaml".data ∨ ext = ".yml".data then .yaml
  else if ext = ".xml".data then .xml
  else DetectFormat (content.take 1024)

/-- The detection procedure exactly as the claim words it: only the five
extensions `.csv/.tsv/.json/.yaml/.yml` are trusted, and any other file is
classified by content. -/
def claimDetectFileFormat (filePath content : List Char) : DataFormat :=
  let ext := (goFilepathExt filePath).map Char.toLower
  if ext = ".csv".data then .csv
  else if ext = ".tsv".data then .tsv
  else if ext = ".json".data then .json
  else if ext = ".yaml".data ∨ ext = ".yml".data then .yaml
  else DetectFormat (content.take 1024)

/-- The amended decision procedure, stated through an extension table:
a recognized extension (now including `.xml ↦ xml`) is trusted first, and
otherwise the (first 1024 bytes of) content is classified in the claim's
order, which is precisely `DetectFormat`. -/
def specExtensionTable : List (List Char × DataFormat) :=
  [(".csv".data, .csv), (".tsv".data, .tsv), (".json".data, .json),
   (".yaml".data, .yaml), (".yml".data, .yaml), (".xml".data, .xml)]

def specDetectFileFormat (filePath content : List Char) : DataFormat :=
  match specExtensionTable.lookup ((goFilepathExt filePath).map Char.toLower) with
  | some fmt => fmt
  | none => DetectFormat (content.take 1024)

/-- C2 counterexample: a file named `data.xml` whose content is plain
comma-delimited text.  The code trusts the `.xml` extension and returns
`xml`; the claim's decision procedure, whose trusted extension list is
`.csv/.tsv/.json/.yaml/.yml` only, would fall through to content sniffing
and answer `csv`. -/
theorem C2_counterexample :
    detectFileFormat "data.xml".data "name,price".data = DataFormat.xml ∧
    claimDetectFileFormat "data.xml".data "name,price".data = DataFormat.csv := by
  constructor <;> decide

/-- C2 amended: format detection is total (every branch of the embedded
functions yields a format), and for every byte buffer and filename the
code's decision procedure agrees with the claim's, once the trusted
extension table also contains `.xml ↦ xml`: a known extension is trusted
first; otherwise the trimmed content is classified as JSON when
bracket-delimited, XML when it begins with `<` and contains `>`, YAML when
it has a colon with a `"\n-"` marker or `"---"` separator, TSV when it
contains a tab, and CSV otherwise, in that order. -/
theorem lookup_specExtensionTable (ext : List Char) :
    specExtensionTable.lookup ext =
      if ext = ".csv".data then some .csv
      else if ext = ".tsv".data then some .tsv
      else if ext = ".json".data then some .json
      else if ext = ".yaml".data then some .yaml
      else if ext = ".yml".data then some .yaml
      else if ext = ".xml".data then some .xml
      else none := by
  by_cases h1 : ext = ".csv".data
  · simp [specExtensionTable, List.lookup_cons, h1]
  · by_cases h2 : ext = ".tsv".data
    · simp [specExtensionTable, List.lookup_cons, h1, h2, beq_false_of_ne h1]
    · by_cases h3 : ext = ".json".data
      · simp [specExtensionTable, List.lookup_cons, h1, h2, h3,
          beq_false_of_ne h1, beq_false_of_ne h2]
      · by_cases h4 : ext = ".yaml".data
        · simp [specExtensionTable, List.lookup_cons, h1, h2, h3, h4,
            beq_false_of_ne h1, beq_false_of_ne h2, beq_false_of_ne h3]
        · by_cases h5 : ext = ".yml".data
          · simp [specExtensionTable, List.lookup_cons, h1, h2, h3, h4, h5,
              beq_false_of_ne h1, beq_false_of_ne h2, beq_false_of_ne h3,
              beq_false_of_ne h4]
          · by_cases h6 : ext = ".xml".data
            · simp [specExtensionTable, List.lookup_cons, h1, h2, h3, h4, h5, h6,
                beq_false_of_ne h1, beq_false_of_ne h2, beq_false_of_ne h3,
                beq_false_of_ne h4, beq_false_of_ne h5]
            · simp [specExtensionTable, List.lookup_cons, h1, h2, h3, h4, h5, h6,
                beq_false_of_ne h1, beq_false_of_ne h2, beq_false_of_ne h3,
                beq_false_of_ne h4, beq_false_of_ne h5, beq_false_of_ne h6]

theorem detectFileFormat_eq_spec (filePath content : List Char) :
    detectFileFormat filePath content = specDetectFileFormat filePath content := by
  unfold detectFileFormat specDetectFileFormat
  rw [lookup_specExtensionTable]
  split_ifs <;> simp_all

/-! ## Flexible date parsing (`FormatConverter.parseFlexibleDate`)

The Go standard library's `time.Parse` is abstracted as a parameter
`goParse : format → input → Option GoTime`; the source consults it and
nothing else about pattern matching, so every theorem below holds for the
actual library behaviour.  `strconv.ParseInt(s, 10, 64)` is modelled
concretely. -/

/-- Digit run to value; `none` when empty or containing a non-digit. -/
def digitsToNat? (cs : List Char) : Option Nat :=
  if cs = [] then none
  else if cs.all (fun c => c.isDigit) then
    some (cs.foldl (fun acc c => acc * 10 + (c.toNat - '0'.toNat)) 0)
  else none

/-- Go's `strconv.ParseInt(s, 10, 64)`: optional sign, digit run, and the
int64 range check (Go reports an error on overflow, so the caller's
`err == nil` test fails). -/
def goParseInt (s : List Char) : Option Int :=
  match s with
  | [] => none
  | '+' :: rest => (digitsToNat? rest).bind (fun n =>
      if n ≤ 9223372036854775807 then some (n : Int) else none)
  | '-' :: rest => (digitsToNat? rest).bind (fun n =>
      if n ≤ 9223372036854775808 then some (-(n : Int)) else none)
  | _ => (digitsToNat? s).bind (fun n =>
      if n ≤ 9223372036854775807 then some (n : Int) else none)

/-- Go's `time.Unix(sec, nsec)`: the denoted instant, in the local zone. -/
def timeUnix (sec nsec : Int) : GoTime :=
  ⟨sec * 1000000000 + nsec, .localZone⟩

/-- The fixed fallback pattern list of `parseFlexibleDate` (format
converter, lines 299–306). -/
def additionalFormats : List String :=
  ["January 2, 2006",
   "Jan 2, 2006 15:04:05",
   "2006-01-02T15:04:05.000Z",
   "2006-01-02T15:04:05.000000Z",
   "Mon Jan 2 15:04:05 MST 2006",
   "Mon, 02 Jan 2006 15:04:05 MST"]

/-- `FormatConverter.parseFlexibleDate` (lines 290–325): configured formats
in order, then the fallback formats, then the Unix-timestamp heuristic
(`> 1e10` means milliseconds; the operands there are positive, so Go's
truncating `/` and `%` agree with any integer-division convention). -/
def parseFlexibleDate (goParse : String → String → Option GoTime)
    (dateFormats : List String) (dateStr : String) : Option GoTime :=
  match dateFormats.findSome? (fun format => goParse format dateStr) with
  | some date => some date
  | none =>
    match additionalFormats.findSome? (fun format => goParse format dateStr) with
    | some date => some date
    | none =>
      match goParseInt dateStr.data with
      | some timestamp =>
        if timestamp > 10000000000 then
          some (timeUnix (timestamp / 1000) ((timestamp % 1000) * 1000000))
        else
          some (timeUnix timestamp 0)
      | none => none

/-- `DateNormalization.Transform` (transformations.go lines 46–55): a
non-zero timestamp is replaced by its UTC rendering; the zero value is left
alone.  The error return is always `nil`. -/
def DateNormalization.Transform (tx : Transaction) : Transaction :=
  if tx.TxTime.isZero then tx else { tx with TxTime := tx.TxTime.UTC }

/-- The date-parsing procedure as the claim words it: one pattern pass over
the configured patterns followed by the fallback ones, then the numeric
interpretation with the `10^10` milliseconds threshold. -/
def specFlexibleDate (goParse : String → String → Option GoTime)
    (dateFormats : List String) (dateStr : String) : Option GoTime :=
  ((dateFormats ++ additionalFormats).findSome? (fun format => goParse format dateStr)).or
    ((goParseInt dateStr.data).map (fun timestamp =>
      if timestamp > 10000000000 then
        timeUnix (timestamp / 1000) ((timestamp % 1000) * 1000000)
      else timeUnix timestamp 0))

/-- C4: for every pattern-matcher behaviour, configured pattern list and
input string, `parseFlexibleDate` attempts the configured patterns in
order, then the fixed fallback patterns, then the Unix-timestamp
interpretation with values above `10^10` read as milliseconds (the first
conjunct, an equation against the claim-worded procedure); it returns an
error exactly when no pattern and no numeric interpretation succeeds (the
second conjunct); and the pipeline's `DateNormalization` step places every
parsed timestamp in UTC without moving the instant — the zero instant,
which Go itself defines as a UTC moment, is left untouched (the third
conjunct). -/
theorem parseFlexibleDate_eq_or (goParse : String → String → Option GoTime)
    (dateFormats : List String) (dateStr : String) :
    parseFlexibleDate goParse dateFormats dateStr =
      specFlexibleDate goParse dateFormats dateStr := by
  unfold parseFlexibleDate specFlexibleDate
  rw [List.findSome?_append]
  cases hc : dateFormats.findSome? (fun format => goParse format dateStr) with
  | some d => simp
  | none =>
    cases ha : additionalFormats.findSome? (fun format => goParse format dateStr) with
    | some d => simp
    | none =>
      cases hp : goParseInt dateStr.data with
      | some ts => by_cases hgt : ts > 10000000000 <;> simp [hgt]
      | none => simp

/-- C4: for every pattern-matcher behaviour, configured pattern list and
input string, `parseFlexibleDate` attempts the configured patterns in
order, then the fixed fallback patterns, then the Unix-timestamp
interpretation with values above `10^10` read as milliseconds (the first
conjunct, an equation against the claim-worded procedure); it returns an
error exactly when no pattern and no numeric interpretation succeeds (the
second conjunct); and the pipeline's `DateNormalization` step places every
parsed timestamp in UTC without moving the instant — the zero instant,
which Go itself defines as a UTC moment, is the only one left untouched
(the third conjunct). -/
theorem parseFlexibleDate_spec (goParse : String → String → Option GoTime)
    (dateFormats : List String) (dateStr : String) :
    parseFlexibleDate goParse dateFormats dateStr =
      specFlexibleDate goParse dateFormats dateStr ∧
    (parseFlexibleDate goParse dateFormats dateStr = none ↔
      (∀ format ∈ dateFormats ++ additionalFormats, goParse format dateStr = none) ∧
        goParseInt dateStr.data = none) ∧
    (∀ tx : Transaction,
      (DateNormalization.Transform tx).TxTime.unixNanos = tx.TxTime.unixNanos ∧
      ((DateNormalization.Transform tx).TxTime.loc = GoLocation.utc ∨
        tx.TxTime.isZero = true)) := by
  refine ⟨parseFlexibleDate_eq_or goParse dateFormats dateStr, ?_, ?_⟩
  · rw [parseFlexibleDate_eq_or]
    unfold specFlexibleDate
    rw [Option.or_eq_none, Option.map_eq_none', List.findSome?_eq_none_iff]
  · intro tx
    unfold DateNormalization.Transform
    by_cases hz : tx.TxTime.isZero
    · simp [hz]
    · simp [hz, GoTime.UTC]

/-! ## Exact model of the `float64` arithmetic used by price parsing

A finite `float64` denotes a rational number.  Rationals are carried here as
raw numerator/denominator pairs `(n : ℤ, d : ℕ)` with `d > 0`, denoting
`n / d` (pairs are not reduced; every function below depends only on the
denoted value).  `roundDouble` sends such a value to the one denoted by the
nearest binary64 (round-to-nearest, ties-to-even), in the normal range —
which covers every quantity appearing in the price claims (no overflow,
underflow or subnormals arise there).  `strconv.ParseFloat` computes exactly
this rounding of the decimal value it reads. -/

/-- Fueled base-2 logarithm (floor) on naturals; fuel `n` suffices for `n`. -/
def natLog2Aux : Nat → Nat → Nat
  | 0, _ => 0
  | fuel + 1, n => if n ≤ 1 then 0 else natLog2Aux fuel (n / 2) + 1

def natLog2 (n : Nat) : Nat := natLog2Aux n n

/-- `⌊log₂ (num/den)⌋` for positive `num/den`. -/
def floorLog2Pos (num den : ℕ) : ℤ :=
  if den ≤ num then (natLog2 (num / den) : ℤ)
  else
    let c := (den + num - 1) / num
    let k0 := natLog2 c
    if den ≤ num * 2 ^ k0 then -(k0 : ℤ) else -((k0 : ℤ) + 1)

/-- Nearest integer to `n / d` (`d > 0`), ties to even. -/
def roundHalfEvenRaw (n : ℤ) (d : ℕ) : ℤ :=
  let f := Int.fdiv n d
  let r := n - f * d
  if 2 * r < (d : ℤ) then f
  else if (d : ℤ) < 2 * r then f + 1
  else if f % 2 = 0 then f else f + 1

/-- Round positive `num/den` to 53 significant bits; the result denotes
`fst/snd`. -/
def roundDoublePosRaw (num den : ℕ) : ℕ × ℕ :=
  let e := floorLog2Pos num den
  if 52 ≤ e then
    let k := (e - 52).toNat
    ((roundHalfEvenRaw (num : ℤ) (den * 2 ^ k)).toNat * 2 ^ k, 1)
  else
    let k := (52 - e).toNat
    ((roundHalfEvenRaw ((num : ℤ) * 2 ^ k) den).toNat, 2 ^ k)

/-- Round the value `p.1 / p.2` to the nearest binary64 value. -/
def roundDouble (p : ℤ × ℕ) : ℤ × ℕ :=
  if p.1 = 0 then (0, 1)
  else if p.1 < 0 then
    let q := roundDoublePosRaw p.1.natAbs p.2
    (-(q.1 : ℤ), q.2)
  else
    let q := roundDoublePosRaw p.1.natAbs p.2
    ((q.1 : ℤ), q.2)

/-- Exact product of two raw rationals. -/
def rawMul (p q : ℤ × ℕ) : ℤ × ℕ := (p.1 * q.1, p.2 * q.2)

/-- Truncation toward zero, Go's `int64(x)` on a finite float. -/
def ratTrunc (p : ℤ × ℕ) : ℤ :=
  if 0 ≤ p.1 then Int.fdiv p.1 p.2 else -Int.fdiv (-p.1) p.2

/-- Digit-run value (0 on the empty list). -/
def natOfDigits (cs : List Char) : Nat :=
  cs.foldl (fun acc c => acc * 10 + (c.toNat - '0'.toNat)) 0

/-- The exact decimal value of an unsigned decimal literal (digits with at
most one dot, at least one digit), `none` otherwise. -/
def parseUnsignedDecimalRat (s : List Char) : Option (ℤ × ℕ) :=
  let intPart := s.takeWhile (fun c => c ≠ '.')
  match s.dropWhile (fun c => c ≠ '.') with
  | [] =>
    if intPart ≠ [] ∧ intPart.all Char.isDigit then
      some ((natOfDigits intPart : ℤ), 1)
    else none
  | _ :: fracPart =>
    if (intPart ≠ [] ∨ fracPart ≠ []) ∧ intPart.all Char.isDigit ∧
        fracPart.all Char.isDigit then
      some (((natOfDigits intPart * 10 ^ fracPart.length + natOfDigits fracPart : ℕ) : ℤ),
        10 ^ fracPart.length)
    else none

/-- The exact decimal value of an optionally signed decimal literal. -/
def parseDecimalRat (s : List Char) : Option (ℤ × ℕ) :=
  match s with
  | '+' :: rest => parseUnsignedDecimalRat rest
  | '-' :: rest => (parseUnsignedDecimalRat rest).map (fun p => (-p.1, p.2))
  | _ => parseUnsignedDecimalRat s

/-- Go's `strconv.ParseFloat(s, 64)` on plain decimal literals (the only
shapes the price pipeline exercises — no exponents or hex floats): the
decimal value correctly rounded to binary64. -/
def parseGoFloat (s : List Char) : Option (ℤ × ℕ) :=
  (parseDecimalRat s).map roundDouble

/-- The currency symbol list of `parseFlexiblePrice` (format converter,
line 267). -/
def currencySymbols : List Char :=
  ['$', '€', '£', '¥', '₹', '₽', '₩', '₪', '₦', '₡', '₵', '₴', '₸', '₱', '₫', '₨']

/-- `FormatConverter.parseFlexiblePrice` (lines 262–287): remove every
currency symbol, then commas, spaces and `%` (each removal is a
single-character `strings.ReplaceAll`, i.e. a character filter), parse the
remainder as a float, multiply by the configured multiplier in binary64,
truncate to `int64`.  `priceMultiplier` denotes the exact rational value of
the configured `float64` multiplier. -/
def parseFlexiblePrice (priceMultiplier : ℤ × ℕ) (priceStr : String) : Option ℤ :=
  let clean1 := currencySymbols.foldl
    (fun acc symbol => acc.filter (fun c => c ≠ symbol)) priceStr.data
  let clean2 := (clean1.filter (fun c => c ≠ ',')).filter (fun c => c ≠ ' ')
  let clean3 := clean2.filter (fun c => c ≠ '%')
  (parseGoFloat clean3).map
    (fun price => ratTrunc (roundDouble (rawMul price priceMultiplier)))

/-- `DataTransformationEngine.cleanString` (engine.go lines 294–302):
trim, then collapse configured null tokens to the empty string. -/
def cleanString (nullValues : List String) (s : String) : String :=
  let t := String.mk (trimSpace s.data)
  if t ∈ nullValues then "" else t

/-- `DataTransformationEngine.parsePrice` (engine.go lines 361–379): null
cleaning, a six-symbol currency set, comma removal, float parse, multiply,
truncate. -/
def engineParsePrice (nullValues : List String) (priceMultiplier : ℤ × ℕ)
    (priceStr : String) : Option ℤ :=
  let s0 := cleanString nullValues priceStr
  let clean1 := (['$', '€', '£', '¥', '₹', '₽'] : List Char).foldl
    (fun acc symbol => acc.filter (fun c => c ≠ symbol)) s0.data
  let clean2 := clean1.filter (fun c => c ≠ ',')
  (parseGoFloat clean2).map
    (fun price => ratTrunc (roundDouble (rawMul price priceMultiplier)))

/-- C5: currency parsing strips symbols and thousands separators, parses
the remainder as a decimal number, multiplies by the configured multiplier
and truncates to integer minor units (this is `parseFlexiblePrice` /
`engineParsePrice` definitionally), and with multiplier 100 the three
quoted examples evaluate — through exact binary64 arithmetic — to precisely
123456, 99999 and 5000 in both implementations. -/
theorem parseFlexiblePrice_examples :
    parseFlexiblePrice (100, 1) "$1,234.56" = some 123456 ∧
    parseFlexiblePrice (100, 1) "€999.99" = some 99999 ∧
    parseFlexiblePrice (100, 1) "£50" = some 5000 ∧
    engineParsePrice ["", "NULL", "null", "N/A", "n/a", "-"] (100, 1) "$1,234.56" =
      some 123456 ∧
    engineParsePrice ["", "NULL", "null", "N/A", "n/a", "-"] (100, 1) "€999.99" =
      some 99999 ∧
    engineParsePrice ["", "NULL", "null", "N/A", "n/a", "-"] (100, 1) "£50" =
      some 5000 := by
  refine ⟨?_, ?_, ?_, ?_, ?_, ?_⟩ <;> decide

/-! ## Column mapping (`FormatConverter.createColumnMapping`) and the
object-key mapping (`FormatConverter.mapToTransaction`)

The Go `map[string]int` is modelled as a function `String → Option ℕ` built
by updates.  The source iterates a `map` literal of synonym rows; that
iteration order is unobservable (rows write to distinct keys, and the inner
`break` merely stops scanning one row's duplicate-free synonym list), so the
rows are kept in their source listing order. -/

/-- The synonym table of `createColumnMapping` (format converter, lines
155–163). -/
def columnVariations : List (String × List String) :=
  [("transaction_id",
    ["transaction_id", "id", "trans_id", "txn_id", "transaction", "order_id"]),
   ("country", ["country", "nation", "country_name", "country_code"]),
   ("region", ["region", "state", "province", "area", "zone", "territory"]),
   ("product_name", ["product_name", "product", "item", "item_name", "product_title"]),
   ("price", ["price", "unit_price", "cost", "amount", "unit_cost", "price_per_unit"]),
   ("quantity", ["quantity", "qty", "amount", "count", "units", "number"]),
   ("transaction_date",
    ["transaction_date", "date", "timestamp", "time", "tx_date", "order_date"])]

/-- The smaller synonym table of `mapToTransaction` (lines 393–401). -/
def jsonFieldMappings : List (String × List String) :=
  [("id", ["transaction_id", "id", "trans_id", "txn_id"]),
   ("country", ["country", "nation", "country_name"]),
   ("region", ["region", "state", "province", "area"]),
   ("product_name", ["product_name", "product", "item", "item_name"]),
   ("price", ["price", "unit_price", "cost", "amount"]),
   ("quantity", ["quantity", "qty", "amount", "count"]),
   ("date", ["transaction_date", "date", "timestamp", "time"])]

def headerSynonyms (field : String) : List String :=
  (columnVariations.lookup field).getD []

def jsonSynonyms (field : String) : List String :=
  (jsonFieldMappings.lookup field).getD []

/-- `strings.ToLower(strings.TrimSpace(col))`. -/
def normalizeHeader (col : String) : String :=
  String.mk ((trimSpace col.data).map Char.toLower)

/-- Writing one key of the Go map. -/
def mapUpdate (m : String → Option ℕ) (k : String) (v : ℕ) : String → Option ℕ :=
  fun q => if q = k then some v else m q

/-- The body of `createColumnMapping`'s header loop for one header at index
`j`: the direct write `columnMap[normalizedCol] = j`, then a write
`columnMap[field] = j` for every synonym row containing the token. -/
def stepCol (m : String → Option ℕ) (j : ℕ) (col : String) : String → Option ℕ :=
  columnVariations.foldl (fun acc sv =>
      if normalizeHeader col ∈ sv.2 then mapUpdate acc sv.1 j else acc)
    (mapUpdate m (normalizeHeader col) j)

def createColumnMappingAux (m : String → Option ℕ) (i : ℕ) :
    List String → (String → Option ℕ)
  | [] => m
  | col :: rest => createColumnMappingAux (stepCol m i col) (i + 1) rest

/-- `FormatConverter.createColumnMapping` (lines 151–184). -/
def createColumnMapping (header : List String) : String → Option ℕ :=
  createColumnMappingAux (fun _ => none) 0 header

/-- One header token matches map key `key` when its normalization is `key`
itself (the direct write) or lies in the synonym row named `key`. -/
def HeaderMatches (key col : String) : Prop :=
  normalizeHeader col = key ∨
    ∃ sv ∈ columnVariations, sv.1 = key ∧ normalizeHeader col ∈ sv.2

instance (key col : String) : Decidable (HeaderMatches key col) := by
  unfold HeaderMatches; infer_instance

/-- The column map as the amended claim describes it: a key holds the
position of the last header token matching it. -/
def specColumnMapping (header : List String) (key : String) : Option ℕ :=
  ((header.enum.filter (fun iv => decide (HeaderMatches key iv.2))).getLast?).map
    (fun iv => iv.1)

theorem condFold_apply (rows : List (String × List String)) :
    ∀ (m0 : String → Option ℕ) (ncol : String) (j : ℕ) (key : String),
      (rows.foldl (fun acc sv =>
          if ncol ∈ sv.2 then mapUpdate acc sv.1 j else acc) m0) key =
        if ∃ sv ∈ rows, sv.1 = key ∧ ncol ∈ sv.2 then some j else m0 key := by
  induction rows with
  | nil => intro m0 ncol j key; simp
  | cons r rs ih =>
    intro m0 ncol j key
    rw [List.foldl_cons, ih]
    by_cases hr : ncol ∈ r.2
    · rw [if_pos hr]
      by_cases hk : r.1 = key
      · have hup : (mapUpdate m0 r.1 j) key = some j := by
          simp [mapUpdate, hk.symm]
        rw [hup, ite_self,
          if_pos ⟨r, List.mem_cons_self r rs, hk, hr⟩]
      · have hup : (mapUpdate m0 r.1 j) key = m0 key := by
          simp only [mapUpdate]
          rw [if_neg (fun h : key = r.1 => hk h.symm)]
        rw [hup]
        refine if_congr ?_ rfl rfl
        constructor
        · rintro ⟨sv, hsv, h1, h2⟩
          exact ⟨sv, List.mem_cons_of_mem _ hsv, h1, h2⟩
        · rintro ⟨sv, hsv, h1, h2⟩
          rcases List.mem_cons.mp hsv with rfl | hsv
          · exact absurd h1 hk
          · exact ⟨sv, hsv, h1, h2⟩
    · rw [if_neg hr]
      refine if_congr ?_ rfl rfl
      constructor
      · rintro ⟨sv, hsv, h1, h2⟩
        exact ⟨sv, List.mem_cons_of_mem _ hsv, h1, h2⟩
      · rintro ⟨sv, hsv, h1, h2⟩
        rcases List.mem_cons.mp hsv with rfl | hsv
        · exact absurd h2 hr
        · exact ⟨sv, hsv, h1, h2⟩

theorem stepCol_apply (m : String → Option ℕ) (j : ℕ) (col key : String) :
    stepCol m j col key = if HeaderMatches key col then some j else m key := by
  unfold stepCol HeaderMatches
  rw [condFold_apply]
  by_cases hex : ∃ sv ∈ columnVariations, sv.1 = key ∧ normalizeHeader col ∈ sv.2
  · rw [if_pos hex, if_pos (Or.inr hex)]
  · rw [if_neg hex]
    by_cases hd : normalizeHeader col = key
    · rw [if_pos (Or.inl hd)]
      simp [mapUpdate, hd.symm]
    · rw [if_neg (fun h => h.elim hd hex)]
      simp only [mapUpdate]
      rw [if_neg (fun h : key = normalizeHeader col => hd h.symm)]

theorem createColumnMappingAux_append (col : String) :
    ∀ (hs : List String) (m : String → Option ℕ) (i : ℕ),
      createColumnMappingAux m i (hs ++ [col]) =
        stepCol (createColumnMappingAux m i hs) (i + hs.length) col := by
  intro hs
  induction hs with
  | nil => intro m i; simp [createColumnMappingAux]
  | cons c cs ih =>
    intro m i
    rw [List.cons_append]
    show createColumnMappingAux (stepCol m i c) (i + 1) (cs ++ [col]) =
      stepCol (createColumnMappingAux (stepCol m i c) (i + 1) cs) (i + (c :: cs).length) col
    rw [ih]
    simp [Nat.add_comm, Nat.add_assoc, Nat.add_left_comm]

theorem createColumnMapping_eq_spec (header : List String) (key : String) :
    createColumnMapping header key = specColumnMapping header key := by
  induction header using List.reverseRecOn with
  | nil => rfl
  | append_singleton hs col ih =>
    unfold createColumnMapping at ih ⊢
    rw [createColumnMappingAux_append, stepCol_apply]
    unfold specColumnMapping at ih ⊢
    rw [List.enum_append, List.filter_append]
    have henum : List.enumFrom hs.length [col] = [(hs.length, col)] := rfl
    rw [henum]
    by_cases hm : HeaderMatches key col
    · rw [if_pos hm]
      have : List.filter (fun iv => decide (HeaderMatches key iv.2))
          [(hs.length, col)] = [(hs.length, col)] := by
        simp [List.filter, hm]
      rw [this, List.getLast?_concat]
      simp
    · rw [if_neg hm]
      have : List.filter (fun iv => decide (HeaderMatches key iv.2))
          [(hs.length, col)] = [] := by
        simp [List.filter, hm]
      rw [this, List.append_nil]
      exact ih

/-! ### The object/document record mapping (`mapToTransaction`)

The dynamic values decoded from JSON/YAML are abstracted by three
parameters: `isStr` (the `val.(string)` type assertion), `render`
(`fmt.Sprintf("%v", val)`) and `asNum` (the numeric type switch of
`getFieldNumericValue`, lines 470–488, including its string-parse arm).
The field-name loops and the synonym table are concrete. -/

/-- `FormatConverter.getFieldValue` (lines 457–467): the first field name
present in the object yields its value, as a string directly or rendered;
otherwise the empty string. -/
def getFieldValue {V : Type} (isStr : V → Option String) (render : V → String)
    (data : List (String × V)) (fieldNames : List String) : String :=
  match fieldNames.findSome? (fun fieldName => (data.lookup fieldName).map (fun v =>
      match isStr v with
      | some s => s
      | none => render v)) with
  | some s => s
  | none => ""

/-- `FormatConverter.getFieldNumericValue` (lines 470–488): the first field
name present with a numerically convertible value yields that value (its
exact rational); names present with unconvertible values are skipped. -/
def getFieldNumericValue {V : Type} (asNum : V → Option (ℤ × ℕ))
    (data : List (String × V)) (fieldNames : List String) : Option (ℤ × ℕ) :=
  fieldNames.findSome? (fun fieldName => (data.lookup fieldName).bind asNum)

/-- The configuration fields read by the format converter. -/
structure ConverterConfig where
  defaultCountry : String
  defaultRegion : String
  priceMultiplier : ℤ × ℕ
  dateFormats : List String

/-- `FormatConverter.mapToTransaction` (lines 389–454): field extraction
driven by `jsonFieldMappings`, with required identifier, product name,
price and date, defaulted country/region, and quantity defaulting to 1. -/
def mapToTransaction {V : Type} (isStr : V → Option String) (render : V → String)
    (asNum : V → Option (ℤ × ℕ)) (goParse : String → String → Option GoTime)
    (cfg : ConverterConfig) (data : List (String × V)) : Option Transaction :=
  let id := getFieldValue isStr render data (jsonSynonyms "id")
  if id = "" then none
  else
    let country0 := getFieldValue isStr render data (jsonSynonyms "country")
    let country := if country0 = "" then cfg.defaultCountry else country0
    let region0 := getFieldValue isStr render data (jsonSynonyms "region")
    let region := if region0 = "" then cfg.defaultRegion else region0
    let productName := getFieldValue isStr render data (jsonSynonyms "product_name")
    if productName = "" then none
    else
      match getFieldNumericValue asNum data (jsonSynonyms "price") with
      | none => none
      | some priceVal =>
        let unitPriceCents := ratTrunc (roundDouble (rawMul priceVal cfg.priceMultiplier))
        let quantity :=
          match getFieldNumericValue asNum data (jsonSynonyms "quantity") with
          | none => 1
          | some q => ratTrunc q
        let dateStr := getFieldValue isStr render data (jsonSynonyms "date")
        if dateStr = "" then none
        else
          match parseFlexibleDate goParse cfg.dateFormats dateStr with
          | none => none
          | some date =>
            some ⟨id, country, region, productName, unitPriceCents, quantity, date⟩

/-- C3 counterexample, against both halves of the claim at explicit inputs.
(1) Same-table: a JSON record keyed `order_id` (a synonym the header table
maps to the identifier, as the second conjunct shows) is rejected by
`mapToTransaction` — its identifier synonym list is the four-entry
truncation `transaction_id/id/trans_id/txn_id`, so the identifier extraction
yields `""` and the record errors out.  (2) First-matching-synonym
tie-break: with headers `["id", "order_id"]`, both synonyms of the
identifier, the map holds index 1 — the *later* header wins, not the
synonym earlier in table order; and the single header `"amount"` is mapped
onto *both* `price` and `quantity`, not onto one winning field. -/
theorem C3_counterexample :
    mapToTransaction (fun s : String => some s) (fun s => s)
        (fun s => parseGoFloat s.data) (fun _ _ => none)
        ⟨"", "", (100, 1), ["2006-01-02"]⟩
        [("order_id", "T1"), ("product_name", "Widget"), ("price", "5"),
         ("transaction_date", "2024-01-02")] = none ∧
    createColumnMapping ["order_id"] "transaction_id" = some 0 ∧
    createColumnMapping ["id", "order_id"] "transaction_id" = some 1 ∧
    createColumnMapping ["amount"] "price" = some 0 ∧
    createColumnMapping ["amount"] "quantity" = some 0 := by
  refine ⟨?_, ?_, ?_, ?_, ?_⟩ <;> decide

/-- C3 amended: header mapping lower-cases and trims each token and maps it
onto *every* canonical field whose synonym row contains it — when several
headers write to one canonical field the last one wins — while every header
is also preserved under its literal normalized name (the first conjunct, an
equation against `specColumnMapping`, which reads the map as "position of
the last matching header"); and the object/document path consults not the
same table but a strict per-field prefix of it (the second conjunct). -/
theorem createColumnMapping_spec (header : List String) (key : String) :
    createColumnMapping header key = specColumnMapping header key ∧
    ([("id", "transaction_id"), ("country", "country"), ("region", "region"),
      ("product_name", "product_name"), ("price", "price"),
      ("quantity", "quantity"), ("date", "transaction_date")].all
        (fun p => decide (jsonSynonyms p.1 <+: headerSynonyms p.2 ∧
          jsonSynonyms p.1 ≠ headerSynonyms p.2))) = true :=
  ⟨createColumnMapping_eq_spec header key, by decide⟩

/-! ## The CSV record parser (`parseRecordToTransaction`, `parseCSV`) and
the skipped-records accounting (C1) -/

/-- The row accessor of `parseRecordToTransaction` (lines 191–196): the
trimmed cell under the mapped column index, `""` when the field is unmapped
or the index is out of range. -/
def getField (columnMap : String → Option ℕ) (record : List String)
    (fieldName : String) : String :=
  match columnMap fieldName with
  | some idx =>
    match record.get? idx with
    | some cell => String.mk (trimSpace cell.data)
    | none => ""
  | none => ""

/-- `FormatConverter.parseRecordToTransaction` (lines 187–259): required
identifier, product name, price and date; defaulted country/region;
quantity string defaulting to `"1"` and parsed with `strconv.ParseInt`. -/
def parseRecordToTransaction (goParse : String → String → Option GoTime)
    (cfg : ConverterConfig) (record : List String)
    (columnMap : String → Option ℕ) : Option Transaction :=
  let id := getField columnMap record "transaction_id"
  if id = "" then none
  else
    let country0 := getField columnMap record "country"
    let country := if country0 = "" then cfg.defaultCountry else country0
    let region0 := getField columnMap record "region"
    let region := if region0 = "" then cfg.defaultRegion else region0
    let productName := getField columnMap record "product_name"
    if productName = "" then none
    else
      let priceStr := getField columnMap record "price"
      if priceStr = "" then none
      else
        match parseFlexiblePrice cfg.priceMultiplier priceStr with
        | none => none
        | some price =>
          let quantityStr0 := getField columnMap record "quantity"
          let quantityStr := if quantityStr0 = "" then "1" else quantityStr0
          match goParseInt quantityStr.data with
          | none => none
          | some quantity =>
            let dateStr := getField columnMap record "transaction_date"
            if dateStr = "" then none
            else
              match parseFlexibleDate goParse cfg.dateFormats dateStr with
              | none => none
              | some date =>
                some ⟨id, country, region, productName, price, quantity, date⟩

/-- The record loop of `FormatConverter.parseCSV` (lines 100–123): a row
whose `parseRecordToTransaction` fails is dropped with only a console
`fmt.Printf` warning — nothing is recorded anywhere else. -/
def parseCSVRecords (goParse : String → String → Option GoTime)
    (cfg : ConverterConfig) (columnMap : String → Option ℕ)
    (rows : List (List String)) : List Transaction :=
  rows.filterMap (fun record => parseRecordToTransaction goParse cfg record columnMap)

/-- `FormatConverter.parseCSV` after the header row has been read: build the
column mapping, then convert row by row. -/
def parseCSV (goParse : String → String → Option GoTime) (cfg : ConverterConfig)
    (header : List String) (rows : List (List String)) : List Transaction :=
  parseCSVRecords goParse cfg (createColumnMapping header) rows

/-- `FlexibleDataHandler.ProcessDataFile` on a CSV file, from raw rows to
the returned transactions and result. -/
def handlerProcessCSVFile (goParse : String → String → Option GoTime)
    (cfg : ConverterConfig)
    (transformations : List (Transaction → Except String Transaction))
    (validators : List (Transaction → Option String))
    (enableValidation enableOptimization : Bool)
    (header : List String) (rows : List (List String)) :
    List Transaction × TransformationResult :=
  ProcessDataFile transformations validators enableValidation enableOptimization
    (parseCSV goParse cfg header rows)

theorem engineProcessRecords_accounting
    (transformRecord : List String → Except String Transaction)
    (validators : List (Transaction → Option String)) (b : Bool) :
    ∀ rows : List (List String),
      (engineProcessRecords transformRecord validators b rows).skipped =
        rows.countP (fun r => match transformRecord r with
          | .error _ => true
          | .ok _ => false) ∧
      (engineProcessRecords transformRecord validators b rows).transactions =
        rows.filterMap (fun r => (transformRecord r).toOption) ∧
      (engineProcessRecords transformRecord validators b rows).errors =
        rows.filterMap (fun r => match transformRecord r with
          | .error e => some e
          | .ok _ => none) := by
  intro rows
  induction rows with
  | nil => exact ⟨rfl, rfl, rfl⟩
  | cons r rs ih =>
    obtain ⟨h1, h2, h3⟩ := ih
    cases htr : transformRecord r with
    | error e =>
      simp [engineProcessRecords, htr, List.countP_cons, List.filterMap_cons,
        Except.toOption, h1, h2, h3]
    | ok tx =>
      cases b with
      | false =>
        simp [engineProcessRecords, htr, List.countP_cons, List.filterMap_cons,
          Except.toOption, h1, h2, h3]
      | true =>
        cases hv : validateTransaction validators tx with
        | none =>
          simp [engineProcessRecords, htr, hv, List.countP_cons,
            List.filterMap_cons, Except.toOption, h1, h2, h3]
        | some w =>
          simp [engineProcessRecords, htr, hv, List.countP_cons,
            List.filterMap_cons, Except.toOption, h1, h2, h3]

/-- C1 counterexample (handler orchestrator): a two-row CSV whose second row
lacks the required identifier.  `parseCSV` drops the failing row with only a
console warning, so `ProcessDataFile` sees one transaction — yet the
returned result reports `SkippedRecords = 0` (the method never increments
that field; the dropped record is also absent from `OriginalRecords`),
refuting "the SkippedRecords counter is incremented by one for each such
record" for this orchestrator. -/
theorem C1_counterexample :
    (handlerProcessCSVFile (fun _ _ => none) ⟨"", "", (100, 1), ["2006-01-02"]⟩
        [] [] false false
        ["transaction_id", "product_name", "price", "transaction_date"]
        [["T1", "Widget", "5", "1710000000"],
         ["", "Widget", "5", "1710000000"]]).1.length = 1 ∧
    (handlerProcessCSVFile (fun _ _ => none) ⟨"", "", (100, 1), ["2006-01-02"]⟩
        [] [] false false
        ["transaction_id", "product_name", "price", "transaction_date"]
        [["T1", "Widget", "5", "1710000000"],
         ["", "Widget", "5", "1710000000"]]).2.SkippedRecords = 0 := by
  constructor <;> decide

/-- C1 amended: in `TransformCSVData`, a record that fails required-field
extraction is dropped before validation and before being appended,
`SkippedRecords` counts exactly those records, each failure also appends
its error string, and with optimization disabled the returned set is
exactly the parse successes in order (no other exclusion point).  In
`ProcessDataFile`, by contrast, such records are dropped inside the format
converter with only a console log: the returned `SkippedRecords` is always
zero, whatever the inputs. -/
theorem skipped_records_accounting
    (transformRecord : List String → Except String Transaction)
    (transformations : List (Transaction → Except String Transaction))
    (validators : List (Transaction → Option String)) (b opt : Bool)
    (rows : List (List String)) (parsed : List Transaction) :
    (TransformCSVData transformRecord validators b opt rows).2.SkippedRecords =
      rows.countP (fun r => match transformRecord r with
        | .error _ => true
        | .ok _ => false) ∧
    (TransformCSVData transformRecord validators b opt rows).2.Errors =
      rows.filterMap (fun r => match transformRecord r with
        | .error e => some e
        | .ok _ => none) ∧
    (TransformCSVData transformRecord validators b false rows).1 =
      rows.filterMap (fun r => (transformRecord r).toOption) ∧
    (ProcessDataFile transformations validators b opt parsed).2.SkippedRecords = 0 := by
  obtain ⟨h1, h2, h3⟩ := engineProcessRecords_accounting transformRecord validators b rows
  exact ⟨h1, h3, h2, rfl⟩

end AbtDashboard
